import Mathlib

/-!
Shallow embedding of the metagenomic KEGG mapping and normalization pipeline
(`process_single_diamond.py`, `sum_kegg_hits.py`, `mean_single_copy.py`,
`make_normalized_feature_table.py`) together with proofs about the embedded
operations.

Conventions used throughout:

* Numeric cell values are rationals (`ℚ`).  A pandas value that is not a
  finite number — the `NaN` produced by a failed `pd.to_numeric(...,
  errors='coerce')`, or the result of an arithmetic operation involving `NaN`
  or a zero divisor — is modelled as `none : Option ℚ`.
* A python dict is modelled as an association list; building a dict by
  successive assignment is `dictOfList` (insertion order, the last assignment
  to a key wins) and dict lookup reads the last matching binding.
* Python `sorted` over strings is modelled by `sortStrings`, an insertion
  sort by the code-point lexicographic order `strLeP`, which is exactly
  python's string comparison.
-/

namespace KeggPipeline

open List

/-! ### Character-level string helpers

Python `s.split(sep)` on a single-character separator, implemented over the
character list of the string so that every definition evaluates by kernel
reduction. -/

/-- `s.split(c)` on a list of characters: splits at every occurrence of `c`,
keeping empty segments, and always returns at least one segment. -/
def splitChar (c : Char) : List Char → List (List Char)
  | [] => [[]]
  | x :: xs =>
    match splitChar c xs with
    | [] => [[]]
    | y :: ys => if x = c then [] :: y :: ys else (x :: y) :: ys

/-- Code-point lexicographic comparison of character lists: python's `<=` on
strings. -/
def charListLe : List Char → List Char → Bool
  | [], _ => true
  | _ :: _, [] => false
  | a :: as, b :: bs => if a < b then true else if b < a then false else charListLe as bs

/-- Python's `<=` on strings. -/
def strLe (a b : String) : Bool := charListLe a.data b.data

/-- `strLe` as a binary relation, used as the sorting order. -/
def strLeP : String → String → Prop := fun a b => strLe a b = true

instance : DecidableRel strLeP := fun _ _ => inferInstanceAs (Decidable (_ = true))

theorem charListLe_total (l₁ l₂ : List Char) :
    charListLe l₁ l₂ = true ∨ charListLe l₂ l₁ = true := by
  induction l₁ generalizing l₂ with
  | nil => left; rfl
  | cons a as ih =>
    cases l₂ with
    | nil => right; rfl
    | cons b bs =>
      rcases lt_trichotomy a b with h | h | h
      · left; simp [charListLe, h]
      · subst h
        rcases ih bs with h' | h'
        · left; simp [charListLe, lt_irrefl, h']
        · right; simp [charListLe, lt_irrefl, h']
      · right; simp [charListLe, h]

theorem charListLe_antisymm (l₁ l₂ : List Char) (h₁ : charListLe l₁ l₂ = true)
    (h₂ : charListLe l₂ l₁ = true) : l₁ = l₂ := by
  induction l₁ generalizing l₂ with
  | nil =>
    cases l₂ with
    | nil => rfl
    | cons b bs => simp [charListLe] at h₂
  | cons a as ih =>
    cases l₂ with
    | nil => simp [charListLe] at h₁
    | cons b bs =>
      rcases lt_trichotomy a b with h | h | h
      · simp [charListLe, h, asymm h] at h₂
      · subst h
        simp only [charListLe, lt_irrefl, if_false] at h₁ h₂
        rw [ih bs h₁ h₂]
      · simp [charListLe, h, asymm h] at h₁

theorem charListLe_trans (l₁ l₂ l₃ : List Char) (h₁ : charListLe l₁ l₂ = true)
    (h₂ : charListLe l₂ l₃ = true) : charListLe l₁ l₃ = true := by
  induction l₁ generalizing l₂ l₃ with
  | nil => rfl
  | cons a as ih =>
    cases l₂ with
    | nil => simp [charListLe] at h₁
    | cons b bs =>
      cases l₃ with
      | nil => simp [charListLe] at h₂
      | cons c cs =>
        simp only [charListLe] at h₁ h₂
        rcases lt_trichotomy a b with hab | hab | hab
        · rcases lt_trichotomy b c with hbc | hbc | hbc
          · simp [charListLe, hab.trans hbc]
          · subst hbc; simp [charListLe, hab]
          · rw [if_neg (asymm hbc), if_pos hbc] at h₂; exact absurd h₂ (by simp)
        · subst hab
          rw [if_neg (lt_irrefl a), if_neg (lt_irrefl a)] at h₁
          rcases lt_trichotomy a c with hac | hac | hac
          · simp [charListLe, hac]
          · subst hac
            rw [if_neg (lt_irrefl a), if_neg (lt_irrefl a)] at h₂
            simp only [charListLe, if_neg (lt_irrefl a)]
            exact ih bs cs h₁ h₂
          · rw [if_neg (asymm hac), if_pos hac] at h₂; exact absurd h₂ (by simp)
        · rw [if_neg (asymm hab), if_pos hab] at h₁; exact absurd h₁ (by simp)

instance : IsTotal String strLeP := ⟨fun a b => charListLe_total a.data b.data⟩

instance : IsTrans String strLeP := ⟨fun a b c => charListLe_trans a.data b.data c.data⟩

instance : IsAntisymm String strLeP :=
  ⟨fun a b h₁ h₂ => by
    cases a; cases b
    exact congrArg String.mk (charListLe_antisymm _ _ h₁ h₂)⟩

/-- Python `sorted` on a list of strings. -/
def sortStrings (l : List String) : List String := List.insertionSort strLeP l

/-- `sorted` over the distinct members of `l` — the iteration order of
`sorted(d.keys())` for a dict whose keys were inserted from `l`. -/
def sortDedup (l : List String) : List String := sortStrings l.dedup

/-! ### `process_single_diamond.py`

`process_diamond_output` streams `(qseqid, sseqid)` data records (header,
comment and fewer-than-two-field lines are skipped before this point),
resolves each subject id against the `gene_to_ko` index and accumulates
`hit_counts[qseqid][ko_number] += 1`; the writing loop then emits one line
`qseqid\tko_number\tnum_hits` per query id (sorted) per code (sorted). -/

/-- Line 106: `sseqid.split('|')[-1] if '|' in sseqid else sseqid`. -/
def afterLastPipe (s : String) : String :=
  if s.data.contains '|' then String.mk ((splitChar '|' s.data).getLastD []) else s

/-- Line 115: `gene_id.split('.')[0]`. -/
def beforeFirstDot (s : String) : String :=
  String.mk ((splitChar '.' s.data).headD [])

/-- Identifier resolution of `process_diamond_output` (lines 106-121): take the
substring after the last pipe, look it up in `gene_to_ko`; on a miss, take the
substring before the first dot of that result and retry once; otherwise the
record contributes nothing (`no_ko_mapping`). -/
def resolve (geneToKo : List (String × String)) (sseqid : String) : Option String :=
  match geneToKo.lookup (afterLastPipe sseqid) with
  | some ko => some ko
  | none => geneToKo.lookup (beforeFirstDot (afterLastPipe sseqid))

/-- The stream of resolved `(qseqid, ko_number)` pairs: one per input record
whose subject id resolves. -/
def resolvedRecords (geneToKo : List (String × String))
    (pairs : List (String × String)) : List (String × String) :=
  pairs.filterMap (fun p => (resolve geneToKo p.2).map (fun ko => (p.1, ko)))

/-- `hit_counts[qseqid][ko_number]` after the streaming loop: the number of
resolved records equal to `(q, ko)`. -/
def hitCount (recs : List (String × String)) (q ko : String) : ℕ :=
  recs.count (q, ko)

/-- The output rows of `process_diamond_output` (lines 133-150): for each query
id in sorted order, for each of its codes in sorted order, the row
`(qseqid, ko_number, num_hits)`. -/
def diamondOutputRows (geneToKo : List (String × String))
    (pairs : List (String × String)) : List (String × String × ℕ) :=
  let recs := resolvedRecords geneToKo pairs
  (sortDedup (recs.map Prod.fst)).flatMap (fun q =>
    (sortDedup ((recs.filter (fun p => p.1 = q)).map Prod.snd)).map (fun ko =>
      (q, ko, hitCount recs q ko)))

/-! ### `sum_kegg_hits.py`

`main` reads rows `(qseqid, kegg_number, num_hits)` with
`pd.read_csv(..., names=[...])`, coerces `num_hits` with
`pd.to_numeric(..., errors='coerce')`, drops the rows whose coercion failed
(`dropna(subset=['num_hits'])`), and sums `num_hits` grouped by
`kegg_number`.  A row's `num_hits` field is modelled post-coercion as
`Option ℚ` (`none` = coercion failed, e.g. the text `num_hits` of a stray
header line read as data). -/

/-- The surviving `(kegg_number, num_hits)` pairs after coercion and
`dropna`. -/
def convertedRows (lines : List (String × String × Option ℚ)) : List (String × ℚ) :=
  lines.filterMap (fun r => r.2.2.map (fun v => (r.2.1, v)))

/-- `data.groupby('kegg_number')['num_hits'].sum()`: one row per distinct
code, keys in sorted order, value the sum of the group. -/
def koSums (data : List (String × ℚ)) : List (String × ℚ) :=
  (sortDedup (data.map Prod.fst)).map
    (fun k => (k, ((data.filter (fun p => p.1 = k)).map Prod.snd).sum))

/-- `main` of `sum_kegg_hits.py` on the parsed input rows.  `pd.read_csv`
raises `EmptyDataError` ("No columns to parse from file") when the input file
holds no data at all; the surrounding `try/except` catches it, prints the
message and returns exit code 1 — modelled as `Except.error`.  Otherwise the
summed table is produced. -/
def sumKeggHitsMain (lines : List (String × String × Option ℚ)) :
    Except String (List (String × ℚ)) :=
  if lines.isEmpty then Except.error "No columns to parse from file"
  else Except.ok (koSums (convertedRows lines))

/-- The total the Aggregator assigns to one code: the sum of the
successfully-converted counts of the rows carrying that code. -/
def codeTotal (lines : List (String × String × Option ℚ)) (c : String) : ℚ :=
  (((convertedRows lines).filter (fun p => p.1 = c)).map Prod.snd).sum

/-! ### `mean_single_copy.py`

`process_file` reads a `(KO, Count)` table without header, coerces `Count`
with `pd.to_numeric(..., errors='coerce')`, drops NaN rows, keeps the rows
whose `KO` is in the module-level single-copy panel `kegg_numbers`, sums the
kept counts per KO, and returns the mean of those per-KO sums as the sample's
`num_genomes` (or `None` for an empty file or an empty filtered set).  The
panel appears as an explicit argument here so the estimator can also be
examined on other panels; the script itself always passes `kegg_numbers`. -/

/-- The module-level list of single-copy KEGG orthology codes. -/
def kegg_numbers : List String := [
  "K09748", "K03687", "K00962", "K02864", "K02994", "K02996", "K03438", "K02835",
  "K02836", "K02968", "K07042", "K11749", "K02879", "K02888", "K03110", "K03531",
  "K02834", "K11753", "K03550", "K03664", "K15429", "K09710", "K08316",
  "K03545", "K02357", "K03501", "K02939", "K02990", "K02520", "K03218", "K03703",
  "K07447", "K01937", "K01872", "K02313", "K03544", "K01870", "K01869", "K01874",
  "K01875", "K04485", "K03177", "K01883", "K03595", "K01892", "K01000",
  "K01887", "K01876", "K00604", "K01889", "K01890", "K02519", "K02838", "K02495",
  "K03723", "K06187", "K03702", "K03631", "K03551", "K03655", "K02338",
  "K02945", "K02528", "K03075", "K02601", "K01756", "K03106", "K03070", "K03073",
  "K03076", "K02988", "K02992", "K02887", "K02112",
  "K02890", "K02470", "K02469", "K02871", "K02876", "K02895", "K01924", "K01925",
  "K02340", "K02878", "K02863", "K02886", "K00088", "K02316", "K03596",
  "K06207", "K03625", "K02600", "K03553", "K03043", "K03040",
  "K03685", "K02860", "K03046", "K02343", "K04075", "K03979",
  "K00942", "K03977", "K02906", "K02948", "K25706", "K14742", "K02926"]

/-- `process_file` of `mean_single_copy.py` (lines 54-80).  `fileEmpty` is the
`os.stat(...).st_size == 0` check; `rows` is the parsed `(KO, Count)` table
with `Count` modelled post-coercion as `Option ℚ` (`none` = coercion failed).
Step 5's second `pd.to_numeric(...).dropna()` on the per-KO sums is the
identity on already-numeric values and is therefore not repeated. -/
def process_file (panel : List String) (fileEmpty : Bool)
    (rows : List (String × Option ℚ)) : Option ℚ :=
  if fileEmpty then none
  else
    let data := rows.filterMap (fun p => p.2.map (fun v => (p.1, v)))
    let filtered := data.filter (fun p => p.1 ∈ panel)
    if filtered.isEmpty then none
    else
      let sums := (sortDedup (filtered.map Prod.fst)).map
        (fun k => ((filtered.filter (fun p => p.1 = k)).map Prod.snd).sum)
      some (sums.sum / (sums.length : ℚ))

/-! ### `make_normalized_feature_table.py`

`process_tsv_file` normalizes one sample's summed table by its genome count
taken from the stats table; `normalize_kegg_hits` then combines all samples'
results into the dense output matrix. -/

/-- Division as pandas performs it on possibly-non-finite operands:
any operation touching `NaN` yields `NaN`, and division by zero of a finite
numerator yields a non-finite value (`inf` or `NaN`), all modelled as
`none`. -/
def nanDiv (x y : Option ℚ) : Option ℚ :=
  match x, y with
  | some a, some b => if b = 0 then none else some (a / b)
  | _, _ => none

/-- Assignment `d[k] = v` on a python dict: overwrite in place if the key
exists, otherwise append the binding. -/
def dictInsert (d : List (String × Option ℚ)) (k : String) (v : Option ℚ) :
    List (String × Option ℚ) :=
  if d.any (fun p => p.1 = k) then d.map (fun p => if p.1 = k then (k, v) else p)
  else d ++ [(k, v)]

/-- Building a python dict by successive assignment over a row list (the
`for _, row in tsv_data.iterrows()` loop): insertion order, last assignment
to a key wins. -/
def dictOfList (l : List (String × Option ℚ)) : List (String × Option ℚ) :=
  l.foldl (fun d p => dictInsert d p.1 p.2) []

/-- `process_tsv_file` (lines 18-53) on one sample.  `stats` is the KEGG stats
table as `(run_accession, num_genomes)` rows, `num_genomes` modelled as
`Option ℚ` (`none` = the NaN that `pd.read_excel` yields for a blank cell);
`relevant_stats.iloc[0]` is the first matching row.  The returned boolean
records whether the skip message for an empty file was printed; when the
sample id has no stats row the function falls through to `return
run_accession, {}` without printing anything. -/
def processTsvFile (stats : List (String × Option ℚ)) (runAccession : String)
    (fileEmpty : Bool) (rows : List (String × Option ℚ)) :
    String × List (String × Option ℚ) × Bool :=
  match stats.find? (fun p => p.1 = runAccession) with
  | none => (runAccession, [], false)
  | some st =>
    if fileEmpty then (runAccession, [], true)
    else (runAccession, dictOfList (rows.map (fun p => (p.1, nanDiv p.2 st.2))), false)

/-- One worker result: `(run_accession, normalized_results)`. -/
abbrev SampleResult := String × List (String × Option ℚ)

/-- `all_run_accessions`: the sample id of every discovered TSV file, in file
order (each file yields exactly one worker result, so this is the list of
result sample ids). -/
def allRunAccessions (results : List SampleResult) : List String :=
  results.map Prod.fst

/-- `all_kegg_numbers`: every code occurring in some non-empty worker result
(`if not result: continue` skips the empty ones). -/
def allKeggNumbers (results : List SampleResult) : List String :=
  ((results.filter (fun p => !p.2.isEmpty)).flatMap (fun p => p.2.map Prod.fst)).dedup

/-- `combined_results[kegg_number][run_accession]` after the accumulation loop
and before zero-filling: among the non-empty results, the last sample named
`ra` that binds `c` wins, and within one sample the last binding of `c`
wins. -/
def combinedLookup (results : List SampleResult) (c ra : String) : Option (Option ℚ) :=
  (((results.filter (fun p => !p.2.isEmpty)).filterMap
      (fun p => (p.2.reverse.lookup c).map (fun v => (p.1, v)))).reverse).lookup ra

/-- A matrix cell after the zero-filling loop: the accumulated value if one
exists, else the fill value `0`. -/
def cellValue (results : List SampleResult) (c ra : String) : Option ℚ :=
  (combinedLookup results c ra).getD (some 0)

/-- `sorted(all_run_accessions)`. -/
def sortedRuns (results : List SampleResult) : List String :=
  sortStrings (allRunAccessions results)

/-- The final feature matrix (lines 106-120): one row per code in
`all_kegg_numbers`, whose cells follow the sorted sample-id column order. -/
def featureMatrix (results : List SampleResult) : List (String × List (Option ℚ)) :=
  (allKeggNumbers results).map
    (fun c => (c, (sortedRuns results).map (fun ra => cellValue results c ra)))

/-- `columns_order = ['kegg_number'] + sorted(all_run_accessions)`
(lines 118-119). -/
def columnsOrder (results : List SampleResult) : List String :=
  "kegg_number" :: sortedRuns results

/-! ### Helper lemmas -/

theorem mem_sortStrings {a : String} {l : List String} : a ∈ sortStrings l ↔ a ∈ l :=
  (List.perm_insertionSort strLeP l).mem_iff

theorem sortStrings_perm (l : List String) : sortStrings l ~ l :=
  List.perm_insertionSort strLeP l

theorem mem_sortDedup {a : String} {l : List String} : a ∈ sortDedup l ↔ a ∈ l := by
  rw [sortDedup, mem_sortStrings, List.mem_dedup]

theorem nodup_sortDedup (l : List String) : (sortDedup l).Nodup :=
  (List.perm_insertionSort strLeP l.dedup).nodup_iff.mpr l.nodup_dedup

theorem filter_eq_length_one {l : List String} (h : l.Nodup) {c : String} (hc : c ∈ l) :
    (l.filter (fun x => x = c)).length = 1 := by
  induction l with
  | nil => cases hc
  | cons a as ih =>
    rw [List.filter_cons]
    rcases List.mem_cons.mp hc with h₁ | h₁
    · subst h₁
      have hnil : as.filter (fun x => x = c) = [] := by
        apply List.filter_eq_nil_iff.mpr
        intro x hx
        simp only [decide_eq_true_eq]
        intro hx'
        exact (List.nodup_cons.mp h).1 (hx' ▸ hx)
      simp [hnil]
    · have hne : a ≠ c := fun he => (List.nodup_cons.mp h).1 (he ▸ h₁)
      rw [if_neg (by simpa using hne)]
      exact ih (List.nodup_cons.mp h).2 h₁

theorem lookup_eq_none_of_fst_ne {β : Type} {l : List (String × β)} {k : String}
    (h : ∀ p ∈ l, p.1 ≠ k) : l.lookup k = none := by
  induction l with
  | nil => rfl
  | cons p t ih =>
    have hpk : (k == p.1) = false := beq_eq_false_iff_ne.mpr
      (fun he => h p (List.mem_cons_self p t) he.symm)
    simp only [List.lookup, hpk]
    exact ih (fun q hq => h q (List.mem_cons_of_mem p hq))

theorem fst_mem_of_lookup_eq_some {β : Type} {l : List (String × β)} {k : String} {v : β}
    (h : l.lookup k = some v) : k ∈ l.map Prod.fst := by
  induction l with
  | nil => simp [List.lookup] at h
  | cons p t ih =>
    by_cases hk : k = p.1
    · exact List.mem_cons.mpr (Or.inl hk)
    · have hpk : (k == p.1) = false := beq_eq_false_iff_ne.mpr hk
      simp only [List.lookup, hpk] at h
      exact List.mem_cons_of_mem _ (ih h)

/-! ### Claim theorems -/

/-- Claim C5 (confirmed): `resolve` keeps the substring after the last pipe
and looks it up; on a miss it takes the substring before the first dot of that
result and retries exactly once, with no further stripping.  In particular
`ns|ABC123.2` resolves through the dot-stripped fallback when only `ABC123`
is indexed, and `ns|XYZ999.1` gives `none` when neither form is indexed. -/
theorem resolve_two_step_policy (geneToKo : List (String × String)) (s : String) :
    ((∀ ko, geneToKo.lookup (afterLastPipe s) = some ko → resolve geneToKo s = some ko)
      ∧ (geneToKo.lookup (afterLastPipe s) = none →
          resolve geneToKo s = geneToKo.lookup (beforeFirstDot (afterLastPipe s))))
    ∧ resolve [("ABC123", "K00042")] "ns|ABC123.2" = some "K00042"
    ∧ resolve [("ABC123", "K00042")] "ns|XYZ999.1" = none := by
  refine ⟨⟨fun ko h => ?_, fun h => ?_⟩, by decide, by decide⟩
  · simp [resolve, h]
  · simp [resolve, h]

theorem resolve_two_step_policy_witness :
    resolve [("ABC123", "K00042")] "ns|ABC123.2"
      = List.lookup (beforeFirstDot (afterLastPipe "ns|ABC123.2")) [("ABC123", "K00042")] :=
  (resolve_two_step_policy [("ABC123", "K00042")] "ns|ABC123.2").1.2 (by decide)

/-- Claim C2, counterexample: with the index mapping `g1` to `K00001` and two
queries both hitting `g1`, the extraction output has two rows carrying code
`K00001` — one per (query, code) pair — so it is not collapsed to one row per
functional code. -/
theorem extractor_per_query_cx :
    diamondOutputRows [("g1", "K00001")] [("q1", "g1"), ("q2", "g1")]
        = [("q1", "K00001", 1), ("q2", "K00001", 1)]
      ∧ ((diamondOutputRows [("g1", "K00001")] [("q1", "g1"), ("q2", "g1")]).filter
          (fun r => r.2.1 = "K00001")).length ≠ 1 := by
  constructor
  · decide
  · decide

/-- Claim C2 (amended): the extraction step's written table retains the
per-query dimension: it has exactly one row per distinct resolved
`(query, code)` pair, carrying that pair's hit count — the collapse to
per-code totals happens later, in the Aggregator. -/
theorem extractor_per_query_rows (geneToKo : List (String × String))
    (pairs : List (String × String)) (q ko : String) :
    (((diamondOutputRows geneToKo pairs).map (fun r => (r.1, r.2.1))).Nodup)
    ∧ ((q, ko) ∈ (diamondOutputRows geneToKo pairs).map (fun r => (r.1, r.2.1))
        ↔ (q, ko) ∈ resolvedRecords geneToKo pairs)
    ∧ (∀ r ∈ diamondOutputRows geneToKo pairs,
        r.2.2 = hitCount (resolvedRecords geneToKo pairs) r.1 r.2.1) := by
  have hdef : diamondOutputRows geneToKo pairs
      = (sortDedup ((resolvedRecords geneToKo pairs).map Prod.fst)).flatMap (fun q' =>
          (sortDedup (((resolvedRecords geneToKo pairs).filter
              (fun p => p.1 = q')).map Prod.snd)).map
            (fun k => (q', k, hitCount (resolvedRecords geneToKo pairs) q' k))) := rfl
  have hshape : (diamondOutputRows geneToKo pairs).map (fun r => (r.1, r.2.1))
      = (sortDedup ((resolvedRecords geneToKo pairs).map Prod.fst)).flatMap (fun q' =>
          (sortDedup (((resolvedRecords geneToKo pairs).filter
              (fun p => p.1 = q')).map Prod.snd)).map
            (fun k => (q', k))) := by
    rw [hdef, List.map_flatMap]
    simp only [List.map_map]
    rfl
  refine ⟨?_, ?_, ?_⟩
  · rw [hshape, List.nodup_flatMap]
    constructor
    · intro q' _
      exact (nodup_sortDedup _).map (fun a b hab => by
        simpa using congrArg Prod.snd hab)
    · have hq : (sortDedup ((resolvedRecords geneToKo pairs).map Prod.fst)).Nodup :=
        nodup_sortDedup _
      refine List.Pairwise.imp ?_ hq
      intro a b hab x hxa hxb
      rcases List.mem_map.mp hxa with ⟨k₁, _, hk₁⟩
      rcases List.mem_map.mp hxb with ⟨k₂, _, hk₂⟩
      have h1 : a = x.1 := (congrArg Prod.fst hk₁ : ((a, k₁) : String × String).1 = x.1)
      have h2 : b = x.1 := (congrArg Prod.fst hk₂ : ((b, k₂) : String × String).1 = x.1)
      exact hab (h1.trans h2.symm)
  · rw [hshape]
    constructor
    · intro hm
      rcases List.mem_flatMap.mp hm with ⟨q', _, hq'⟩
      rcases List.mem_map.mp hq' with ⟨k, hk, hqk⟩
      have h1 : q' = q := congrArg Prod.fst hqk
      have h2 : k = ko := congrArg Prod.snd hqk
      rcases List.mem_map.mp (mem_sortDedup.mp hk) with ⟨p, hp, hps⟩
      obtain ⟨p₁, p₂⟩ := p
      have h3 : p₁ = q' := by simpa using (List.mem_filter.mp hp).2
      have h4 : p₂ = k := hps
      rw [← h1, ← h2, ← h3, ← h4]
      exact (List.mem_filter.mp hp).1
    · intro hm
      refine List.mem_flatMap.mpr
        ⟨q, mem_sortDedup.mpr (List.mem_map.mpr ⟨(q, ko), hm, rfl⟩), ?_⟩
      refine List.mem_map.mpr
        ⟨ko, mem_sortDedup.mpr (List.mem_map.mpr ⟨(q, ko), ?_, rfl⟩), rfl⟩
      exact List.mem_filter.mpr ⟨hm, by simp⟩
  · intro r hr
    rw [hdef] at hr
    rcases List.mem_flatMap.mp hr with ⟨q', _, hq'⟩
    rcases List.mem_map.mp hq' with ⟨k, _, hqk⟩
    rw [← hqk]

theorem extractor_per_query_rows_witness :
    (("q1", "K00001") ∈ (diamondOutputRows [("g1", "K00001")] [("q1", "g1")]).map
        (fun r => (r.1, r.2.1)))
      ↔ ("q1", "K00001") ∈ resolvedRecords [("g1", "K00001")] [("q1", "g1")] :=
  (extractor_per_query_rows [("g1", "K00001")] [("q1", "g1")] "q1" "K00001").2.1

/-- Claim C4, counterexample: on a zero-record input the Aggregator does not
return an empty totals table — the `pd.read_csv` call raises and the
`except` branch signals failure (exit code 1). -/
theorem aggregator_empty_input_cx :
    (sumKeggHitsMain []).isOk = false ∧ sumKeggHitsMain [] ≠ Except.ok [] := by
  constructor
  · rfl
  · simp [sumKeggHitsMain]

/-- Claim C4 (amended): a zero-record input makes the Aggregator signal an
error (the `EmptyDataError` of `pd.read_csv`, caught and turned into exit
code 1) rather than return an empty table; an input whose rows are present
but all fail numeric conversion does yield an empty totals table without
error. -/
theorem aggregator_empty_error_policy (lines : List (String × String × Option ℚ)) :
    (lines = [] → sumKeggHitsMain lines = Except.error "No columns to parse from file")
    ∧ (lines ≠ [] → (∀ r ∈ lines, r.2.2 = none) → sumKeggHitsMain lines = Except.ok []) := by
  constructor
  · intro h; subst h; rfl
  · intro hne hall
    have hcr : convertedRows lines = [] := by
      rw [convertedRows, List.filterMap_eq_nil_iff]
      intro r hr
      rw [hall r hr]
      rfl
    rw [sumKeggHitsMain, if_neg (by simpa [List.isEmpty_iff] using hne)]
    rw [hcr]
    rfl

theorem aggregator_empty_error_policy_witness :
    sumKeggHitsMain [("qseqid", "kegg_number", (none : Option ℚ))] = Except.ok [] :=
  (aggregator_empty_error_policy [("qseqid", "kegg_number", none)]).2 (by simp) (by decide)

/-- Claim C7 (confirmed): per-code aggregation is chunk-associative and
order-independent — aggregating the concatenation of two chunks gives, for
every code, the sum of the two chunk totals, and permuting the record list
leaves every code total unchanged. -/
theorem aggregation_chunk_assoc (l₁ l₂ l l' : List (String × String × Option ℚ))
    (c : String) (hp : l ~ l') :
    codeTotal (l₁ ++ l₂) c = codeTotal l₁ c + codeTotal l₂ c
    ∧ codeTotal l c = codeTotal l' c := by
  constructor
  · simp only [codeTotal, convertedRows, List.filterMap_append, List.filter_append,
      List.map_append, List.sum_append]
  · exact (((hp.filterMap _).filter _).map _).sum_eq

theorem aggregation_chunk_assoc_witness :
    codeTotal [("q1", "K00001", some 2), ("q2", "K00002", some 3)] "K00001"
      = codeTotal [("q2", "K00002", some 3), ("q1", "K00001", some 2)] "K00001" :=
  (aggregation_chunk_assoc [] [] _ _ "K00001" (by decide)).2

theorem filter_eq_length_le_one {l : List String} (h : l.Nodup) (c : String) :
    (l.filter (fun x => x = c)).length ≤ 1 := by
  by_cases hc : c ∈ l
  · exact (filter_eq_length_one h hc).le
  · rw [List.filter_eq_nil_iff.mpr ?_]
    · exact Nat.zero_le 1
    · intro x hx
      simp only [decide_eq_true_eq]
      intro hx'
      exact hc (hx' ▸ hx)

/-- Claim C10 (confirmed): rows whose count field fails numeric conversion
(such as a stray header line read as data) are dropped before grouping, so the
output total of every code is the sum of only the successfully-converted
counts, each code appears at most once, and a code appears exactly when it has
at least one converted row.  (All output totals are finite rationals by
construction — the `NaN` rows never reach the sum.) -/
theorem aggregator_drops_unconvertible (lines : List (String × String × Option ℚ))
    (c : String) (hne : lines ≠ []) :
    ∃ t, sumKeggHitsMain lines = Except.ok t
      ∧ ((t.filter (fun p => p.1 = c)).length ≤ 1)
      ∧ (∀ p ∈ t, p.1 = c → p.2 = codeTotal lines c)
      ∧ ((c, codeTotal lines c) ∈ t ↔ c ∈ (convertedRows lines).map Prod.fst) := by
  refine ⟨koSums (convertedRows lines), ?_, ?_, ?_, ?_⟩
  · rw [sumKeggHitsMain, if_neg (by simpa [List.isEmpty_iff] using hne)]
  · rw [koSums, List.filter_map, List.length_map]
    exact filter_eq_length_le_one (nodup_sortDedup _) c
  · intro p hp hpc
    rw [koSums] at hp
    rcases List.mem_map.mp hp with ⟨k, _, hk⟩
    have h1 : k = p.1 := congrArg Prod.fst hk
    have h2 : p.2 = (((convertedRows lines).filter (fun r => r.1 = k)).map Prod.snd).sum :=
      (congrArg Prod.snd hk).symm
    rw [h2, h1, hpc]
    rfl
  · constructor
    · intro hm
      rw [koSums] at hm
      rcases List.mem_map.mp hm with ⟨k, hkmem, hk⟩
      have h1 : k = c := congrArg Prod.fst hk
      exact mem_sortDedup.mp (h1 ▸ hkmem)
    · intro hm
      rw [koSums]
      exact List.mem_map.mpr ⟨c, mem_sortDedup.mpr hm, rfl⟩

theorem aggregator_drops_unconvertible_witness :
    ([("qseqid", "kegg_number", (none : Option ℚ)), ("q1", "K00001", some 2)]
        ≠ ([] : List (String × String × Option ℚ)))
    ∧ ∃ t, sumKeggHitsMain
          [("qseqid", "kegg_number", (none : Option ℚ)), ("q1", "K00001", some 2)]
        = Except.ok t
      ∧ ((t.filter (fun p => p.1 = "K00001")).length ≤ 1)
      ∧ (∀ p ∈ t, p.1 = "K00001" → p.2 = codeTotal
          [("qseqid", "kegg_number", (none : Option ℚ)), ("q1", "K00001", some 2)] "K00001")
      ∧ (("K00001", codeTotal
            [("qseqid", "kegg_number", (none : Option ℚ)), ("q1", "K00001", some 2)] "K00001") ∈ t
          ↔ "K00001" ∈ (convertedRows
            [("qseqid", "kegg_number", (none : Option ℚ)), ("q1", "K00001", some 2)]).map Prod.fst) :=
  ⟨by simp, aggregator_drops_unconvertible _ "K00001" (by simp)⟩

theorem map_groupSum_of_nodup (F : List (String × ℚ)) (h : (F.map Prod.fst).Nodup) :
    (F.map Prod.fst).map (fun k => ((F.filter (fun p => p.1 = k)).map Prod.snd).sum)
      = F.map Prod.snd := by
  induction F with
  | nil => rfl
  | cons a t ih =>
    obtain ⟨k, v⟩ := a
    have h' : (k :: t.map Prod.fst).Nodup := by simpa using h
    have hk : k ∉ t.map Prod.fst := (List.nodup_cons.mp h').1
    have ht : (t.map Prod.fst).Nodup := (List.nodup_cons.mp h').2
    have hhead : ((((k, v) :: t).filter (fun p => p.1 = k)).map Prod.snd).sum = v := by
      have hnil : t.filter (fun p => p.1 = k) = [] := by
        apply List.filter_eq_nil_iff.mpr
        intro p hp
        simp only [decide_eq_true_eq]
        intro hpk
        exact hk (List.mem_map.mpr ⟨p, hp, hpk⟩)
      rw [List.filter_cons, if_pos (by simp), hnil]
      simp
    have htail : ∀ k' ∈ t.map Prod.fst,
        ((((k, v) :: t).filter (fun p => p.1 = k')).map Prod.snd).sum
          = ((t.filter (fun p => p.1 = k')).map Prod.snd).sum := by
      intro k' hk'
      have hne : k ≠ k' := fun he => hk (he ▸ hk')
      rw [List.filter_cons, if_neg (by simpa using hne)]
    simp only [List.map_cons]
    rw [hhead, List.map_congr_left htail, ih ht]

theorem filterMap_some_pairs (rows : List (String × ℚ)) :
    (rows.map (fun p => ((p.1, some p.2) : String × Option ℚ))).filterMap
      (fun p => p.2.map (fun v => (p.1, v))) = rows := by
  induction rows with
  | nil => rfl
  | cons a t ih =>
    rw [List.map_cons, List.filterMap_cons]
    simp only [Option.map_some']
    rw [ih]

/-- `process_file` on a table of distinct codes with finite counts: the
estimate is the mean of the marker-filtered counts. -/
theorem process_file_mean (panel : List String) (rows : List (String × ℚ))
    (hnd : (rows.map Prod.fst).Nodup)
    (hov : ∃ p ∈ rows, p.1 ∈ panel) :
    process_file panel false (rows.map (fun p => (p.1, some p.2)))
      = some ((((rows.filter (fun p => p.1 ∈ panel)).map Prod.snd).sum)
          / (((rows.filter (fun p => p.1 ∈ panel)).map Prod.snd).length : ℚ)) := by
  have hdata : (rows.map (fun p => ((p.1, some p.2) : String × Option ℚ))).filterMap
      (fun p => p.2.map (fun v => (p.1, v))) = rows := filterMap_some_pairs rows
  obtain ⟨p₀, hp₀, hp₀m⟩ := hov
  have hfne : rows.filter (fun p => p.1 ∈ panel) ≠ [] := by
    intro hnil
    have hmem : p₀ ∈ rows.filter (fun p => p.1 ∈ panel) :=
      List.mem_filter.mpr ⟨hp₀, by simpa using hp₀m⟩
    rw [hnil] at hmem
    cases hmem
  have hFnd : ((rows.filter (fun p => p.1 ∈ panel)).map Prod.fst).Nodup :=
    hnd.sublist ((List.filter_sublist _).map Prod.fst)
  simp only [process_file, hdata, Bool.false_eq_true, if_false]
  rw [if_neg (by simpa [List.isEmpty_iff] using hfne)]
  have hperm : sortDedup ((rows.filter (fun p => p.1 ∈ panel)).map Prod.fst)
      ~ (rows.filter (fun p => p.1 ∈ panel)).map Prod.fst := by
    rw [sortDedup, hFnd.dedup]
    exact sortStrings_perm _
  have hsums : (sortDedup ((rows.filter (fun p => p.1 ∈ panel)).map Prod.fst)).map
        (fun k => (((rows.filter (fun p => p.1 ∈ panel)).filter
            (fun p => p.1 = k)).map Prod.snd).sum)
      ~ (rows.filter (fun p => p.1 ∈ panel)).map Prod.snd := by
    refine (hperm.map _).trans ?_
    rw [map_groupSum_of_nodup _ hFnd]
  rw [hsums.sum_eq, hsums.length_eq]

/-- Claim C6 (confirmed): on a per-code totals table with at least one code in
the marker panel, the genome-count estimate is the arithmetic mean of the
marker-filtered totals; in particular totals K00001 = 10, K00002 = 20,
K00003 = 30 under the panel of those three codes give exactly 20. -/
theorem estimator_mean_correct (panel : List String) (rows : List (String × ℚ))
    (hnd : (rows.map Prod.fst).Nodup) (hov : ∃ p ∈ rows, p.1 ∈ panel) :
    process_file panel false (rows.map (fun p => (p.1, some p.2)))
        = some ((((rows.filter (fun p => p.1 ∈ panel)).map Prod.snd).sum)
            / (((rows.filter (fun p => p.1 ∈ panel)).map Prod.snd).length : ℚ))
    ∧ process_file ["K00001", "K00002", "K00003"] false
        [("K00001", some 10), ("K00002", some 20), ("K00003", some 30)] = some 20 := by
  refine ⟨process_file_mean panel rows hnd hov, ?_⟩
  have h : process_file ["K00001", "K00002", "K00003"] false
      [("K00001", some 10), ("K00002", some 20), ("K00003", some 30)]
      = some (((([("K00001", (10 : ℚ)), ("K00002", 20), ("K00003", 30)].filter
            (fun p => p.1 ∈ ["K00001", "K00002", "K00003"])).map Prod.snd).sum)
          / ((([("K00001", (10 : ℚ)), ("K00002", 20), ("K00003", 30)].filter
            (fun p => p.1 ∈ ["K00001", "K00002", "K00003"])).map Prod.snd).length : ℚ)) :=
    process_file_mean ["K00001", "K00002", "K00003"]
      [("K00001", 10), ("K00002", 20), ("K00003", 30)] (by decide)
      ⟨("K00001", 10), by decide, by decide⟩
  have hT : ([("K00001", (10 : ℚ)), ("K00002", 20), ("K00003", 30)].filter
      (fun p => p.1 ∈ ["K00001", "K00002", "K00003"])).map Prod.snd = [10, 20, 30] := by
    decide
  rw [hT] at h
  rw [h]
  norm_num

theorem estimator_mean_correct_witness :
    process_file ["K00001", "K00002", "K00003"] false
      [("K00001", some 10), ("K00002", some 20), ("K00003", some 30)] = some 20 :=
  (estimator_mean_correct ["K00001", "K00002", "K00003"]
    [("K00001", 10), ("K00002", 20), ("K00003", 30)] (by decide)
    ⟨("K00001", 10), by decide, by decide⟩).2

/-- Claim C3, counterexample: a totals table whose only row is a marker code
with count zero makes the estimator return the estimate `0`, not missing —
the code only returns missing when the marker-filtered set is empty, and an
all-zero filtered set is non-empty with mean `0.0`. -/
theorem estimator_zero_totals_cx :
    process_file kegg_numbers false [("K09748", some 0)] = some 0
    ∧ process_file kegg_numbers false [("K09748", some 0)] ≠ none := by
  have h : process_file kegg_numbers false [("K09748", some 0)] = some 0 := by
    have h₁ := process_file_mean kegg_numbers [("K09748", 0)] (by decide)
      ⟨("K09748", 0), by decide, by decide⟩
    have hT : ([("K09748", (0 : ℚ))].filter (fun p => p.1 ∈ kegg_numbers)).map Prod.snd
        = [0] := by decide
    rw [hT] at h₁
    have h₂ : process_file kegg_numbers false [("K09748", some 0)]
        = some ((([0] : List ℚ).sum) / ((([0] : List ℚ).length) : ℚ)) := h₁
    rw [h₂]
    norm_num
  exact ⟨h, by rw [h]; exact Option.some_ne_none 0⟩

/-- Claim C3 (amended): a totals table whose marker-panel-filtered values all
fail numeric coercion is treated like "no marker overlap" and returns missing
— but a table whose marker-filtered values are all (successfully coerced)
zeros returns the estimate `0.0`, not missing.  Non-marker rows are
unconstrained: only the rows whose code lies in the panel are scoped. -/
theorem estimator_coercion_policy (rows : List (String × Option ℚ)) :
    ((∀ p ∈ rows, p.1 ∈ kegg_numbers → p.2 = none) →
        process_file kegg_numbers false rows = none)
    ∧ ((∀ p ∈ rows, p.1 ∈ kegg_numbers → p.2 = some 0) →
        (∃ p ∈ rows, p.1 ∈ kegg_numbers) →
        process_file kegg_numbers false rows = some 0) := by
  constructor
  · intro hz
    have hfil : (rows.filterMap (fun p => p.2.map (fun v => (p.1, v)))).filter
        (fun p => p.1 ∈ kegg_numbers) = [] := by
      rw [List.filter_eq_nil_iff]
      intro q hq
      simp only [decide_eq_true_eq]
      intro hqmem
      rcases List.mem_filterMap.mp hq with ⟨p, hp, hmap⟩
      rcases Option.map_eq_some'.mp hmap with ⟨v, hv, hpair⟩
      have hq1 : p.1 = q.1 := congrArg Prod.fst hpair
      have hp2 : p.2 = none := hz p hp (by rw [hq1]; exact hqmem)
      rw [hp2] at hv
      cases hv
    simp [process_file, hfil]
  · intro hz hov
    obtain ⟨p₀, hp₀, hp₀m⟩ := hov
    have hF0 : ∀ x ∈ (rows.filterMap (fun p => p.2.map (fun v => (p.1, v)))).filter
        (fun p => p.1 ∈ kegg_numbers), x.2 = (0 : ℚ) := by
      intro x hx
      have hxmem := (List.mem_filter.mp hx).1
      have hxpan : x.1 ∈ kegg_numbers := by simpa using (List.mem_filter.mp hx).2
      rcases List.mem_filterMap.mp hxmem with ⟨p, hp, hmap⟩
      rcases Option.map_eq_some'.mp hmap with ⟨v, hv, hpair⟩
      have hx1 : p.1 = x.1 := congrArg Prod.fst hpair
      have hp2 : p.2 = some 0 := hz p hp (by rw [hx1]; exact hxpan)
      rw [hp2] at hv
      have hv0 : (0 : ℚ) = v := Option.some.inj hv
      have hx2 : v = x.2 := congrArg Prod.snd hpair
      rw [← hx2, ← hv0]
    have hp₀2 : p₀.2 = some 0 := hz p₀ hp₀ hp₀m
    have hne : (rows.filterMap (fun p => p.2.map (fun v => (p.1, v)))).filter
        (fun p => p.1 ∈ kegg_numbers) ≠ [] := by
      intro hnil
      have hmem : ((p₀.1, (0 : ℚ)))
          ∈ (rows.filterMap (fun p => p.2.map (fun v => (p.1, v)))).filter
            (fun p => p.1 ∈ kegg_numbers) := by
        refine List.mem_filter.mpr ⟨?_, by simpa using hp₀m⟩
        exact List.mem_filterMap.mpr ⟨p₀, hp₀, by rw [hp₀2]; rfl⟩
      rw [hnil] at hmem
      cases hmem
    have hsum0 : ∀ k, ((((rows.filterMap (fun p => p.2.map (fun v => (p.1, v)))).filter
        (fun p => p.1 ∈ kegg_numbers)).filter (fun p => p.1 = k)).map Prod.snd).sum = 0 := by
      intro k
      apply List.sum_eq_zero
      intro x hx
      rcases List.mem_map.mp hx with ⟨p, hp, hps⟩
      rw [← hps]
      exact hF0 p (List.mem_filter.mp hp).1
    simp only [process_file, Bool.false_eq_true, if_false]
    rw [if_neg (by simpa [List.isEmpty_iff] using hne)]
    have hS : ((sortDedup (((rows.filterMap (fun p => p.2.map (fun v => (p.1, v)))).filter
          (fun p => p.1 ∈ kegg_numbers)).map Prod.fst)).map
        (fun k => ((((rows.filterMap (fun p => p.2.map (fun v => (p.1, v)))).filter
            (fun p => p.1 ∈ kegg_numbers)).filter (fun p => p.1 = k)).map Prod.snd).sum)).sum
        = 0 := by
      apply List.sum_eq_zero
      intro x hx
      rcases List.mem_map.mp hx with ⟨k, _, hk⟩
      rw [← hk]
      exact hsum0 k
    rw [hS, zero_div]

theorem estimator_coercion_policy_witness :
    process_file kegg_numbers false [("XYZ", some 5), ("K09748", (none : Option ℚ))] = none :=
  (estimator_coercion_policy [("XYZ", some 5), ("K09748", none)]).1 (by decide)

theorem cellValue_eq_zero_of_not_bound (results : List SampleResult) (c ra : String)
    (h : ∀ p ∈ results, p.1 = ra → c ∉ p.2.map Prod.fst) :
    cellValue results c ra = some 0 := by
  rw [cellValue]
  have hnone : combinedLookup results c ra = none := by
    rw [combinedLookup]
    apply lookup_eq_none_of_fst_ne
    intro pr hpr
    rw [List.mem_reverse] at hpr
    rcases List.mem_filterMap.mp hpr with ⟨p, hp, hmap⟩
    rcases Option.map_eq_some'.mp hmap with ⟨v, hv, hpair⟩
    intro hfst
    have hp1 : p.1 = ra := by
      rw [← hpair] at hfst
      exact hfst
    have hcmem : c ∈ p.2.map Prod.fst := by
      have hrev := fst_mem_of_lookup_eq_some hv
      rw [List.map_reverse, List.mem_reverse] at hrev
      exact hrev
    exact h p (List.mem_filter.mp hp).1 hp1 hcmem
  rw [hnone]
  rfl

/-- Claim C1, counterexample: a sample whose stats row is present but holds a
NaN `num_genomes` (the value `pd.read_excel` yields when the estimator wrote
`None`) gets NaN — not zero — in every matrix cell of a code it observed, and
no per-sample message is printed.  The claim that every cell of such a column
is zero and that a warning is recorded is therefore false. -/
theorem normalizer_nan_genomes_cx :
    (processTsvFile [("S1", (none : Option ℚ))] "S1" false [("K00001", some 10)]
        = ("S1", [("K00001", (none : Option ℚ))], false))
    ∧ cellValue [("S1", [("K00001", (none : Option ℚ))])] "K00001" "S1" ≠ some 0 := by
  constructor
  · decide
  · decide

/-- Claim C1 (amended): a sample id absent from the stats table yields an
empty result dict (all-zero column after zero-filling) with no message
printed; a sample present with NaN `num_genomes` yields a dict binding every
observed code to NaN, again with no message printed; in both cases the run
continues and the sample's column stays in the matrix. -/
theorem normalizer_missing_genomes_policy (stats rows : List (String × Option ℚ))
    (ra : String) (results : List SampleResult) :
    ((∀ p ∈ stats, p.1 ≠ ra) → processTsvFile stats ra false rows = (ra, [], false))
    ∧ ((stats.find? (fun p => p.1 = ra)).map Prod.snd = some none →
        processTsvFile stats ra false rows
          = (ra, dictOfList (rows.map (fun p => (p.1, (none : Option ℚ)))), false))
    ∧ ((∀ p ∈ results, p.1 = ra → p.2 = []) → ∀ c, cellValue results c ra = some 0)
    ∧ (ra ∈ allRunAccessions results → ra ∈ columnsOrder results) := by
  refine ⟨?_, ?_, ?_, ?_⟩
  · intro h
    have hf : stats.find? (fun p => p.1 = ra) = none :=
      List.find?_eq_none.mpr (fun p hp => by simpa using h p hp)
    simp [processTsvFile, hf]
  · intro h
    rcases Option.map_eq_some'.mp h with ⟨st, hst, hst2⟩
    simp only [processTsvFile, hst, Bool.false_eq_true, if_false]
    simp only [hst2]
    have hmap : (rows.map (fun p => (p.1, nanDiv p.2 none)))
        = rows.map (fun p => (p.1, (none : Option ℚ))) :=
      List.map_congr_left (fun p _ => by cases hp2 : p.2 <;> rfl)
    rw [hmap]
  · intro h c
    apply cellValue_eq_zero_of_not_bound
    intro p hp hpra
    rw [h p hp hpra]
    simp
  · intro h
    exact List.mem_cons_of_mem _ ((sortStrings_perm _).mem_iff.mpr h)

theorem normalizer_missing_genomes_policy_witness :
    processTsvFile [("S2", some 4)] "S1" false [("K00001", some 10)] = ("S1", [], false) :=
  (normalizer_missing_genomes_policy [("S2", some 4)] [("K00001", some 10)] "S1" []).1
    (by decide)

/-- Claim C8 (confirmed): the output matrix is fully dense — for a code
observed in some sample and any sample id (the sample ids being distinct),
the matrix holds exactly one row for the code, every row holds one cell per
sample, the sample's column position is unique, and a (code, sample)
combination the sample never observed holds the explicit fill value `0`. -/
theorem matrix_fully_dense (results : List SampleResult) (c ra : String)
    (hc : c ∈ allKeggNumbers results) (hra : ra ∈ allRunAccessions results)
    (hnd : (allRunAccessions results).Nodup)
    (hno : ∀ p ∈ results, p.1 = ra → c ∉ p.2.map Prod.fst) :
    ((featureMatrix results).filter (fun row => row.1 = c)).length = 1
    ∧ (∀ row ∈ featureMatrix results, row.2.length = (allRunAccessions results).length)
    ∧ ((sortedRuns results).filter (fun x => x = ra)).length = 1
    ∧ cellValue results c ra = some 0 := by
  refine ⟨?_, ?_, ?_, cellValue_eq_zero_of_not_bound results c ra hno⟩
  · rw [featureMatrix, List.filter_map, List.length_map]
    exact filter_eq_length_one (List.nodup_dedup _) hc
  · intro row hrow
    rw [featureMatrix] at hrow
    rcases List.mem_map.mp hrow with ⟨c', _, hc'⟩
    rw [← hc', List.length_map]
    exact (sortStrings_perm _).length_eq
  · have hperm : sortedRuns results ~ allRunAccessions results := sortStrings_perm _
    rw [(hperm.filter _).length_eq]
    exact filter_eq_length_one hnd hra

theorem matrix_fully_dense_witness :
    cellValue [("S1", [("K00001", some 1)]), ("S2", ([] : List (String × Option ℚ)))]
      "K00001" "S2" = some 0 :=
  (matrix_fully_dense [("S1", [("K00001", some 1)]), ("S2", [])] "K00001" "S2"
    (by decide) (by decide) (by decide) (by decide)).2.2.2

/-- Claim C9 (confirmed): the output column order is the code column
`kegg_number` followed by the sample ids sorted lexicographically, and it is a
function of the sample-id multiset alone — any two result collections whose
sample ids are permutations of one another produce identical column orders,
regardless of worker-completion order. -/
theorem matrix_column_order_deterministic (r₁ r₂ : List SampleResult)
    (hp : allRunAccessions r₁ ~ allRunAccessions r₂) :
    columnsOrder r₁ = columnsOrder r₂
    ∧ (columnsOrder r₁).head? = some "kegg_number"
    ∧ List.Sorted strLeP (sortedRuns r₁)
    ∧ sortedRuns r₁ ~ allRunAccessions r₁ := by
  refine ⟨?_, rfl, List.sorted_insertionSort strLeP _, sortStrings_perm _⟩
  have h1 : sortedRuns r₁ = sortedRuns r₂ :=
    List.eq_of_perm_of_sorted
      (((sortStrings_perm _).trans hp).trans (sortStrings_perm _).symm)
      (List.sorted_insertionSort strLeP _) (List.sorted_insertionSort strLeP _)
  rw [columnsOrder, columnsOrder, h1]

theorem matrix_column_order_deterministic_witness :
    columnsOrder [("S2", ([] : List (String × Option ℚ))), ("S1", [("K00001", some 1)])]
      = columnsOrder [("S1", [("K00001", some 1)]), ("S2", ([] : List (String × Option ℚ)))] :=
  (matrix_column_order_deterministic
    [("S2", []), ("S1", [("K00001", some 1)])]
    [("S1", [("K00001", some 1)]), ("S2", [])] (by decide)).1

end KeggPipeline
